import Mathlib

/-!
Shallow embedding of the Telco churn prediction service
(`src/app.py` and `src/model_training.py`).

A JSON record is an association list from field names to values; a value is
either a number (modelled as a rational) or a string.  A fitted
`LabelEncoder` is its `classes_` list: the integer code of a category is its
position in that list, and a category absent from the list has no code
(`transform` raises).  A fitted `StandardScaler` is its per-feature mean and
scale vectors; `transform` computes `(x - mean) / scale` elementwise.

`preprocess_input` (src/app.py lines 37-85) is embedded stage by stage in
source order: the label-encoding loop, the `TotalCharges`
coercion/imputation, the `NEW_Engaged` / `NEW_TotalServices` feature
engineering, the default-to-0 loop over missing feature columns, the column
selection, and the scaling.  Any Python exception inside the function's
`try` block (unseen label, missing column, non-numeric data reaching the
scaler) makes it return `None`; the embedding returns `none` in exactly
those places, so the whole transform lives in `Option`.
-/

/-- A JSON scalar value: a number or a string. -/
inductive Val where
  | num (q : ℚ)
  | str (s : String)
deriving DecidableEq, Repr

/-- One input record (a flat JSON object), as an association list. -/
abbrev Record := List (String × Val)

/-- First-match lookup of a field in a record, i.e. `data[col]` /
`col in df.columns`. -/
def lookupRec (c : String) : Record → Option Val
  | [] => none
  | (k, v) :: t => if k = c then some v else lookupRec c t

/-- The keys of a record, in order. -/
def keysRec (r : Record) : List String := r.map Prod.fst

/-- `df[col] = v`: if the column exists, replace its value in place
(position preserved); otherwise append it as a new column. -/
def setCol (r : Record) (c : String) (v : Val) : Record :=
  if (lookupRec c r).isSome then
    r.map (fun p => (p.1, if p.1 = c then v else p.2))
  else
    r ++ [(c, v)]

/-- A fitted `LabelEncoder`, reduced to its `classes_` list.  The code of a
category is its index in this list (scikit-learn stores the sorted distinct
training values and `transform` returns positions). -/
abbrev Encoder := List String

/-- `LabelEncoder.transform` on one value: the position of the category in
`classes_`, or failure when the category was not seen at fit time. -/
def classIndex : Encoder → String → Option Nat
  | [], _ => none
  | c :: t, s => if c = s then some 0 else (classIndex t s).map (· + 1)

/-- The `label_encoders` artifact: a mapping from categorical column name to
its fitted encoder. -/
abbrev EncTable := List (String × Encoder)

/-- Lookup of a column's encoder, i.e. `label_encoders[col]` /
`col in label_encoders`. -/
def lookupEnc (c : String) : EncTable → Option Encoder
  | [] => none
  | (k, e) :: t => if k = c then some e else lookupEnc c t

/-- The `scaler` artifact: per-feature `mean_` and `scale_` of a fitted
`StandardScaler`. -/
structure ScalerT where
  mean : List ℚ
  scale : List ℚ
deriving DecidableEq, Repr

/-- `StandardScaler.transform` on one row: `(x - mean) / scale`
elementwise; fails when the row width differs from the fitted width. -/
def ScalerT.transform (sc : ScalerT) (xs : List ℚ) : Option (List ℚ) :=
  if xs.length = sc.mean.length ∧ xs.length = sc.scale.length then
    some (List.zipWith (fun x ms => (x - ms.1) / ms.2) xs (sc.mean.zip sc.scale))
  else none

/-- The 15 categorical columns of src/app.py lines 44-48 (identical to
src/model_training.py lines 48-52). -/
def categorical_columns : List String :=
  ["gender", "Partner", "Dependents", "PhoneService",
   "MultipleLines", "InternetService", "OnlineSecurity",
   "OnlineBackup", "DeviceProtection", "TechSupport",
   "StreamingTV", "StreamingMovies", "Contract",
   "PaperlessBilling", "PaymentMethod"]

/-- The seven service columns summed into `NEW_TotalServices`
(src/app.py lines 60-62, src/model_training.py lines 38-40). -/
def service_columns : List String :=
  ["PhoneService", "OnlineSecurity", "OnlineBackup",
   "DeviceProtection", "TechSupport", "StreamingTV", "StreamingMovies"]

/-- The 21 feature columns in their fixed order (src/app.py lines 65-69,
identical to src/model_training.py lines 130-134). -/
def feature_columns : List String :=
  ["SeniorCitizen", "tenure", "MonthlyCharges", "TotalCharges",
   "gender", "Partner", "Dependents", "PhoneService", "MultipleLines",
   "InternetService", "OnlineSecurity", "OnlineBackup", "DeviceProtection",
   "TechSupport", "StreamingTV", "StreamingMovies", "Contract",
   "PaperlessBilling", "PaymentMethod", "NEW_Engaged", "NEW_TotalServices"]

/-- Read a run of decimal digits as a natural number; fails on the empty
run or on any non-digit character. -/
def parseDigits : List Char → Option Nat
  | [] => none
  | cs => cs.foldlM
      (fun acc c => if c.isDigit then some (acc * 10 + (c.toNat - 48)) else none) 0

/-- Numeric parsing of a string, as `pd.to_numeric` accepts plain decimal
literals: an optional sign, an integer part and an optional fractional
part.  Strings such as "N/A", "" or "abc" do not parse. -/
def parseNum (s : String) : Option ℚ :=
  let (sign, cs) : ℚ × List Char :=
    match s.toList with
    | '-' :: rest => (-1, rest)
    | '+' :: rest => (1, rest)
    | cs => (1, cs)
  match cs.splitOn '.' with
  | [a] => (parseDigits a).map (fun n => sign * n)
  | [a, b] =>
      if a.isEmpty ∧ b.isEmpty then none
      else do
        let na ← if a.isEmpty then some 0 else parseDigits a
        let nb ← if b.isEmpty then some 0 else parseDigits b
        some (sign * ((na : ℚ) + (nb : ℚ) / (10 : ℚ) ^ b.length))
  | _ => none

/-- `pd.to_numeric(v, errors='coerce')` on one cell: numbers pass through,
numeric strings parse, anything else becomes missing (`NaN`). -/
def toNumericVal : Val → Option ℚ
  | Val.num q => some q
  | Val.str s => parseNum s

/-- The `TotalCharges` imputation rule shared by serving (src/app.py lines
55-56) and training (src/model_training.py lines 24-25): coerce to numeric,
and where that yields a missing value substitute the row's `MonthlyCharges`
value. -/
def imputeTC (tc mc : Val) : Val :=
  match toNumericVal tc with
  | some q => Val.num q
  | none => mc

/-- The label-encoding loop of src/app.py lines 50-52: for each listed
column that is present in the dataframe AND has an entry in
`label_encoders`, replace its value by the encoder's integer code.  An
unseen category (or a non-string cell handed to the encoder) raises, which
surfaces as `none`. -/
def encodeCols (encs : EncTable) : List String → Record → Option Record
  | [], r => some r
  | c :: cs, r =>
    match lookupRec c r, lookupEnc c encs with
    | some v, some e =>
        match v with
        | Val.str s =>
            match classIndex e s with
            | some k => encodeCols encs cs (setCol r c (Val.num k))
            | none => none
        | Val.num _ => none
    | _, _ => encodeCols encs cs r

/-- src/app.py lines 55-56: `df['TotalCharges'] = pd.to_numeric(df['TotalCharges'],
errors='coerce')` followed by `fillna(df['MonthlyCharges'])`.  Both column
accesses raise `KeyError` when the column is absent. -/
def imputeStage (r : Record) : Option Record :=
  match lookupRec "TotalCharges" r, lookupRec "MonthlyCharges" r with
  | some tc, some mc => some (setCol r "TotalCharges" (imputeTC tc mc))
  | _, _ => none

/-- src/app.py line 59: serving-time `NEW_Engaged` — `1 if x in [1, 2] else 0`
applied to the (already encoded) `Contract` cell.  In Python a string cell
is simply not equal to 1 or 2, so it yields 0 without raising. -/
def servingEngaged (v : Val) : ℚ :=
  match v with
  | Val.num q => if q = 1 ∨ q = 2 then 1 else 0
  | Val.str _ => 0

/-- One cell of the serving-time `NEW_TotalServices` comparison
(src/app.py lines 60-62): `cell == 1`. -/
def isEncodedYes (v : Val) : Bool :=
  match v with
  | Val.num q => q = 1
  | Val.str _ => false

/-- Column selection `df[[c1, ..., ck]]` on the single row: the listed
cells in order, raising `KeyError` on the first absent column. -/
def lookupCols : List String → Record → Option (List Val)
  | [], _ => some []
  | c :: t, r =>
    match lookupRec c r, lookupCols t r with
    | some v, some vs => some (v :: vs)
    | _, _ => none

/-- src/app.py lines 59-62: derive `NEW_Engaged` from the `Contract` cell
and `NEW_TotalServices` as the row count of service cells equal to 1.
`df['Contract']` and the seven service columns raise `KeyError` when
absent. -/
def engineerStage (r : Record) : Option Record :=
  match lookupRec "Contract" r with
  | none => none
  | some contract =>
    match lookupCols service_columns (setCol r "NEW_Engaged" (Val.num (servingEngaged contract))) with
    | none => none
    | some svals =>
      some (setCol (setCol r "NEW_Engaged" (Val.num (servingEngaged contract)))
        "NEW_TotalServices" (Val.num (svals.countP isEncodedYes)))

/-- src/app.py lines 72-74: every feature column absent from the dataframe
is added with value 0. -/
def defaultStage (r : Record) : Record :=
  feature_columns.foldl
    (fun acc c => if (lookupRec c acc).isSome then acc else setCol acc c (Val.num 0)) r

/-- src/app.py line 76: `X = df[feature_columns]`, the row's cells in the
fixed 21-column order (all present after `defaultStage`, so the selection
itself cannot fail there). -/
def selectFeatures (r : Record) : Option (List Val) :=
  lookupCols feature_columns r

/-- NumPy's coercion of one cell to float when the scaler consumes the row:
numbers pass, numeric strings parse, any other string raises. -/
def cellToFloat : Val → Option ℚ
  | Val.num q => some q
  | Val.str s => parseNum s

/-- Coercion of the selected row to a float array (what feeding the
dataframe row to `scaler.transform` does cell by cell). -/
def floatCells : List Val → Option (List ℚ)
  | [] => some []
  | v :: t =>
    match cellToFloat v, floatCells t with
    | some q, some qs => some (q :: qs)
    | _, _ => none

/-- `preprocess_input` of src/app.py lines 37-85: the label-encoding loop,
`TotalCharges` imputation, feature engineering, defaulting of absent
feature columns, column selection and scaling, in source order; every
exception path of the Python `try` block is a `none`.  The scaler is
`Option` because the module-level `scaler` global may still be `None`. -/
def preprocess_input (encs : EncTable) (scOpt : Option ScalerT) (data : Record) :
    Option (List ℚ) :=
  (encodeCols encs categorical_columns data).bind fun r₁ =>
  (imputeStage r₁).bind fun r₂ =>
  (engineerStage r₂).bind fun r₃ =>
  (selectFeatures (defaultStage r₃)).bind fun xs =>
  (floatCells xs).bind fun xq =>
  scOpt.bind fun sc =>
  sc.transform xq

/-! ## Training-side per-row transforms (src/model_training.py)

The training pipeline applies the same row-wise formulas over the whole
dataframe (`df[...].apply`, column-wise comparison and row sum); the
embeddings below are those per-row formulas. -/

/-- src/model_training.py line 23: the `Churn` label map,
`1 if x == 'Yes' else 0`. -/
def churnLabel (v : Val) : ℚ :=
  if v = Val.str "Yes" then 1 else 0

/-- src/model_training.py line 37: training-time `NEW_Engaged`,
`1 if x in ['One year','Two year'] else 0` on the raw `Contract` value. -/
def trainEngaged (v : Val) : ℚ :=
  if v = Val.str "One year" ∨ v = Val.str "Two year" then 1 else 0

/-- src/model_training.py lines 38-40: training-time `NEW_TotalServices`,
the row count of the seven raw service cells equal to the string "Yes". -/
def trainTotalServices (vs : List Val) : ℚ :=
  vs.countP (· = Val.str "Yes")

/-- Code-point-wise lexicographic order on character lists (how Python
compares strings, hence how `np.unique` sorts category labels). -/
def charsLe : List Char → List Char → Bool
  | [], _ => true
  | _ :: _, [] => false
  | a :: as, b :: bs =>
    if a.toNat < b.toNat then true
    else if b.toNat < a.toNat then false
    else charsLe as bs

/-- Lexicographic comparison of strings. -/
def strLe (a b : String) : Bool := charsLe a.toList b.toList

/-- Insert a string into a sorted list of strings. -/
def insertSorted (s : String) : List String → List String
  | [] => [s]
  | c :: t => if strLe s c then s :: c :: t else c :: insertSorted s t

/-- Insertion sort on strings. -/
def sortStrings : List String → List String
  | [] => []
  | c :: t => insertSorted c (sortStrings t)

/-- Keep the first occurrence of each string. -/
def dedupStrings : List String → List String
  | [] => []
  | c :: t =>
    let d := dedupStrings t
    if c ∈ d then d else c :: d

/-- src/model_training.py lines 56-60: `LabelEncoder.fit` assigns codes in
sorted order of the distinct observed values, so the stored `classes_` list
is the sorted deduplicated vocabulary. -/
def fitEncoder (observed : List String) : Encoder :=
  sortStrings (dedupStrings observed)

/-! ## Serving endpoints (src/app.py lines 92-143)

The Flask handlers read the module-level globals `model`, `label_encoders`
and `scaler` and never assign them (only `load_model`, run once at startup,
does).  The embedding passes that process-wide state explicitly: each
handler takes the state and returns the response paired with the state the
process is left in. -/

/-- A JSON scalar in a response body (every body the app produces is a flat
object of scalars). -/
inductive JVal where
  | jnum (q : ℚ)
  | jstr (s : String)
  | jbool (b : Bool)
deriving DecidableEq, Repr

/-- A flat JSON response body. -/
abbrev Json := List (String × JVal)

/-- An HTTP response: status code and JSON body. -/
structure Response where
  status : Nat
  body : Json
deriving DecidableEq, Repr

/-- The opaque classifier artifact: `predict` yields the row's label and
`predict_proba` its (no-churn, churn) probability pair; `typeName` is
`type(model).__name__`. -/
structure Model where
  typeName : String
  predict : List ℚ → ℤ
  proba : List ℚ → ℚ × ℚ

/-- The process-wide state of src/app.py lines 13-15: the three artifacts,
`None`/empty until `load_model` has run. -/
structure AppState where
  model : Option Model
  label_encoders : EncTable
  scaler : Option ScalerT

/-- Whether an object tests truthy in `if not data`: `None` and the empty
dict are falsy, every non-empty dict is truthy. -/
def truthyBody : Option Record → Bool
  | none => false
  | some r => !r.isEmpty

/-- The `/predict` handler, src/app.py lines 92-126: model-readiness check
first, then the body check, then preprocessing, then the classifier;
each failure returns the corresponding error JSON.  No global is written,
so the state is returned unchanged. -/
def predictHandler (st : AppState) (body : Option Record) : Response × AppState :=
  match st.model with
  | none => (⟨500, [("error", JVal.jstr "Model not loaded")]⟩, st)
  | some m =>
    if truthyBody body = false then
      (⟨400, [("error", JVal.jstr "No data provided")]⟩, st)
    else
      match body with
      | none => (⟨400, [("error", JVal.jstr "No data provided")]⟩, st)
      | some data =>
        match preprocess_input st.label_encoders st.scaler data with
        | none => (⟨400, [("error", JVal.jstr "Error in data preprocessing")]⟩, st)
        | some x =>
          let pred := m.predict x
          let p := m.proba x
          (⟨200,
            [("prediction", JVal.jnum pred),
             ("churn_probability", JVal.jnum p.2),
             ("no_churn_probability", JVal.jnum p.1),
             ("message", JVal.jstr
               (if pred = 1 then "Customer will churn" else "Customer will not churn"))]⟩,
           st)

/-- The `/health` handler, src/app.py lines 128-131: always 200, with
`model_loaded` reporting whether the model global is set. -/
def healthHandler (st : AppState) : Response × AppState :=
  (⟨200,
    [("status", JVal.jstr "healthy"),
     ("model_loaded", JVal.jbool st.model.isSome)]⟩, st)

/-! ## Concrete fixtures

The encoder table below is what `encode_categorical_features`
(src/model_training.py lines 44-62) produces on the standard Telco
Customer Churn vocabularies: per column, the sorted distinct category
strings, codes being positions. -/

/-- The fitted encoder table over the standard Telco vocabularies. -/
def stdEncTable : EncTable :=
  [("gender", ["Female", "Male"]),
   ("Partner", ["No", "Yes"]),
   ("Dependents", ["No", "Yes"]),
   ("PhoneService", ["No", "Yes"]),
   ("MultipleLines", ["No", "No phone service", "Yes"]),
   ("InternetService", ["DSL", "Fiber optic", "No"]),
   ("OnlineSecurity", ["No", "No internet service", "Yes"]),
   ("OnlineBackup", ["No", "No internet service", "Yes"]),
   ("DeviceProtection", ["No", "No internet service", "Yes"]),
   ("TechSupport", ["No", "No internet service", "Yes"]),
   ("StreamingTV", ["No", "No internet service", "Yes"]),
   ("StreamingMovies", ["No", "No internet service", "Yes"]),
   ("Contract", ["Month-to-month", "One year", "Two year"]),
   ("PaperlessBilling", ["No", "Yes"]),
   ("PaymentMethod", ["Bank transfer (automatic)", "Credit card (automatic)",
                      "Electronic check", "Mailed check"])]

/-- A fitted scaler of the right width (21 features); means 0 and scales 1
keep concrete evaluations readable. -/
def idScaler : ScalerT :=
  ⟨List.replicate 21 0, List.replicate 21 1⟩

/-- A concrete classifier stand-in (the claims under test never depend on
its decision function). -/
def sampleModel : Model :=
  ⟨"RandomForestClassifier", fun _ => 1, fun _ => (3/10, 7/10)⟩

/-- A complete, in-vocabulary customer record (the unit tests' payload,
completed to all 19 raw fields). -/
def sampleRecord : Record :=
  [("gender", Val.str "Male"),
   ("SeniorCitizen", Val.num 0),
   ("Partner", Val.str "No"),
   ("Dependents", Val.str "No"),
   ("tenure", Val.num 12),
   ("PhoneService", Val.str "Yes"),
   ("MultipleLines", Val.str "No"),
   ("InternetService", Val.str "DSL"),
   ("OnlineSecurity", Val.str "No"),
   ("OnlineBackup", Val.str "Yes"),
   ("DeviceProtection", Val.str "No"),
   ("TechSupport", Val.str "No"),
   ("StreamingTV", Val.str "Yes"),
   ("StreamingMovies", Val.str "Yes"),
   ("Contract", Val.str "Month-to-month"),
   ("PaperlessBilling", Val.str "Yes"),
   ("PaymentMethod", Val.str "Electronic check"),
   ("MonthlyCharges", Val.num 50),
   ("TotalCharges", Val.num 600)]

/-- `sampleRecord` with one field replaced. -/
def withField (r : Record) (c : String) (v : Val) : Record :=
  r.map (fun p => if p.1 = c then (c, v) else p)

/-- `sampleRecord` with one field removed entirely. -/
def dropField (r : Record) (c : String) : Record :=
  r.filter (fun p => p.1 ≠ c)

/-- The `/model_info` handler, src/app.py lines 133-143. -/
def modelInfoHandler (st : AppState) : Response × AppState :=
  match st.model with
  | none => (⟨500, [("error", JVal.jstr "Model not loaded")]⟩, st)
  | some m =>
    (⟨200,
      [("model_type", JVal.jstr m.typeName),
       ("features", JVal.jnum (if st.label_encoders.isEmpty then 0 else st.label_encoders.length)),
       ("status", JVal.jstr "loaded")]⟩, st)



/-- The process state with all three artifacts loaded. -/
def sampleState : AppState := ⟨some sampleModel, stdEncTable, some idScaler⟩

/-- `sampleRecord` with an out-of-vocabulary `Contract` value. -/
def badContractRecord : Record :=
  withField sampleRecord "Contract" (Val.str "Lifetime")

/-- `sampleRecord` with an out-of-vocabulary `gender` value. -/
def badGenderRecord : Record :=
  withField sampleRecord "gender" (Val.str "Unknown")

/-- An encoder table produced by a training run whose `Contract` column
contained only "One year" and "Two year": sorted-order fitting assigns
them codes 0 and 1. -/
def c3Table : EncTable := [("Contract", fitEncoder ["One year", "Two year"])]

/-- A record with `Contract` = "One year" and the columns the transform
consumes; the seven service cells are already numeric so only `Contract`
gets encoded. -/
def c3Record : Record :=
  [("Contract", Val.str "One year"),
   ("TotalCharges", Val.num 100),
   ("MonthlyCharges", Val.num 50),
   ("PhoneService", Val.num 0),
   ("OnlineSecurity", Val.num 0),
   ("OnlineBackup", Val.num 0),
   ("DeviceProtection", Val.num 0),
   ("TechSupport", Val.num 0),
   ("StreamingTV", Val.num 0),
   ("StreamingMovies", Val.num 0)]

/-- A complete record whose seven service fields have exactly three at
"Yes" (PhoneService, OnlineSecurity, OnlineBackup). -/
def threeServicesRecord : Record :=
  [("gender", Val.str "Male"),
   ("SeniorCitizen", Val.num 0),
   ("Partner", Val.str "No"),
   ("Dependents", Val.str "No"),
   ("tenure", Val.num 12),
   ("PhoneService", Val.str "Yes"),
   ("MultipleLines", Val.str "No"),
   ("InternetService", Val.str "DSL"),
   ("OnlineSecurity", Val.str "Yes"),
   ("OnlineBackup", Val.str "Yes"),
   ("DeviceProtection", Val.str "No"),
   ("TechSupport", Val.str "No"),
   ("StreamingTV", Val.str "No"),
   ("StreamingMovies", Val.str "No"),
   ("Contract", Val.str "Month-to-month"),
   ("PaperlessBilling", Val.str "Yes"),
   ("PaymentMethod", Val.str "Mailed check"),
   ("MonthlyCharges", Val.num 50),
   ("TotalCharges", Val.num 600)]

/-- The raw service cells of `threeServicesRecord`, in service-column
order. -/
def threeServicesCells : List Val :=
  [Val.str "Yes", Val.str "Yes", Val.str "Yes", Val.str "No",
   Val.str "No", Val.str "No", Val.str "No"]

/-- `stdEncTable` without an entry for `gender` (an artifact bundle whose
encoder dictionary lacks that column). -/
def noGenderTable : EncTable :=
  stdEncTable.filter (fun p => p.1 ≠ "gender")

/-- Running a function twice on the same input, as a client replaying the
same request against the same artifacts does. -/
def runTwice {α β : Type} (f : α → β) (a : α) : β × β := (f a, f a)

/-! ## Lookup and update lemmas -/

theorem lookupRec_map_replace (r : Record) (c x : String) (v : Val) :
    lookupRec x (r.map (fun p => (p.1, if p.1 = c then v else p.2))) =
      if x = c then (lookupRec c r).map (fun _ => v) else lookupRec x r := by
  induction r with
  | nil => by_cases hxc : x = c <;> simp [lookupRec, hxc]
  | cons p t ih =>
    obtain ⟨k, w⟩ := p
    by_cases hkx : k = x
    · subst hkx
      by_cases hkc : k = c <;> simp [lookupRec, hkc, ih]
    · by_cases hkc : k = c
      · subst hkc
        have hxk : ¬ x = k := fun hh => hkx hh.symm
        simp [lookupRec, hkx, hxk, ih]
      · simp [lookupRec, hkx, hkc, ih]

theorem lookupRec_append_single (r : Record) (c x : String) (v : Val) :
    lookupRec x (r ++ [(c, v)]) =
      match lookupRec x r with
      | some w => some w
      | none => if c = x then some v else none := by
  induction r with
  | nil => simp [lookupRec]
  | cons p t ih =>
    obtain ⟨k, w⟩ := p
    by_cases hkx : k = x
    · simp [lookupRec, hkx]
    · simp [lookupRec, hkx, ih]

theorem lookupRec_setCol_self (r : Record) (c : String) (v : Val) :
    lookupRec c (setCol r c v) = some v := by
  unfold setCol
  by_cases h : (lookupRec c r).isSome
  · rw [if_pos h, lookupRec_map_replace, if_pos rfl]
    obtain ⟨w, hw⟩ := Option.isSome_iff_exists.mp h
    simp [hw]
  · rw [if_neg h, lookupRec_append_single]
    rcases hl : lookupRec c r with _ | w
    · simp
    · exact absurd (by simp [hl]) h

theorem lookupRec_setCol_ne (r : Record) (c x : String) (v : Val) (h : x ≠ c) :
    lookupRec x (setCol r c v) = lookupRec x r := by
  unfold setCol
  by_cases hp : (lookupRec c r).isSome
  · rw [if_pos hp, lookupRec_map_replace, if_neg h]
  · rw [if_neg hp, lookupRec_append_single]
    rcases hl : lookupRec x r with _ | w
    · show (if c = x then some v else none) = none
      exact if_neg (fun hcx => h hcx.symm)
    · rfl

/-! ## Equation lemmas for the encoding loop -/

theorem encodeCols_cons_noval {encs : EncTable} {c : String} {r : Record}
    (cs : List String) (h : lookupRec c r = none) :
    encodeCols encs (c :: cs) r = encodeCols encs cs r := by
  rw [encodeCols, h]

theorem encodeCols_cons_noenc {encs : EncTable} {c : String} {r : Record}
    (cs : List String) (h : lookupEnc c encs = none) :
    encodeCols encs (c :: cs) r = encodeCols encs cs r := by
  rw [encodeCols, h]
  rcases lookupRec c r with _ | v
  · rfl
  · rfl

theorem encodeCols_cons_num {encs : EncTable} {c : String} {r : Record} {q : ℚ}
    {e : Encoder} (cs : List String) (hv : lookupRec c r = some (Val.num q))
    (he : lookupEnc c encs = some e) :
    encodeCols encs (c :: cs) r = none := by
  rw [encodeCols, hv, he]

theorem encodeCols_cons_str {encs : EncTable} {c : String} {r : Record} {s : String}
    {e : Encoder} (cs : List String) (hv : lookupRec c r = some (Val.str s))
    (he : lookupEnc c encs = some e) :
    encodeCols encs (c :: cs) r =
      match classIndex e s with
      | some k => encodeCols encs cs (setCol r c (Val.num k))
      | none => none := by
  rw [encodeCols, hv, he]

/-! ## Lookup-equivalence (congruence) machinery

Every stage reads the dataframe only through column lookups and writes it
only through `setCol`, so two records with the same lookup function are
indistinguishable to the transform. -/

/-- Two records are lookup-equivalent when every column lookup agrees. -/
def EquivRec (r r' : Record) : Prop := ∀ x, lookupRec x r = lookupRec x r'

theorem EquivRec.setCol {r r' : Record} (h : EquivRec r r') (c : String) (v : Val) :
    EquivRec (setCol r c v) (setCol r' c v) := by
  intro x
  by_cases hx : x = c
  · subst hx
    rw [lookupRec_setCol_self, lookupRec_setCol_self]
  · rw [lookupRec_setCol_ne _ _ _ _ hx, lookupRec_setCol_ne _ _ _ _ hx]
    exact h x

theorem lookupCols_congr {r r' : Record} (h : EquivRec r r') (cs : List String) :
    lookupCols cs r = lookupCols cs r' := by
  induction cs with
  | nil => rfl
  | cons c t ih => rw [lookupCols, lookupCols, h c, ih]

/-- Lifts `EquivRec` to the `Option` results of a fallible stage. -/
def OptEquiv : Option Record → Option Record → Prop
  | none, none => True
  | some a, some b => EquivRec a b
  | _, _ => False

theorem encodeCols_congr (encs : EncTable) (cs : List String) :
    ∀ {r r' : Record}, EquivRec r r' →
      OptEquiv (encodeCols encs cs r) (encodeCols encs cs r') := by
  induction cs with
  | nil => intro r r' h; exact h
  | cons c t ih =>
    intro r r' h
    rcases e1 : lookupRec c r with _ | v
    · rw [encodeCols_cons_noval t e1, encodeCols_cons_noval t ((h c).symm.trans e1)]
      exact ih h
    · have e1' : lookupRec c r' = some v := (h c).symm.trans e1
      rcases e2 : lookupEnc c encs with _ | e
      · rw [encodeCols_cons_noenc t e2, encodeCols_cons_noenc t e2]
        exact ih h
      · rcases v with q | s
        · rw [encodeCols_cons_num t e1 e2, encodeCols_cons_num t e1' e2]
          trivial
        · rw [encodeCols_cons_str t e1 e2, encodeCols_cons_str t e1' e2]
          rcases classIndex e s with _ | k
          · trivial
          · exact ih (h.setCol c (Val.num k))

theorem imputeStage_congr {r r' : Record} (h : EquivRec r r') :
    OptEquiv (imputeStage r) (imputeStage r') := by
  rw [imputeStage, imputeStage, h "TotalCharges", h "MonthlyCharges"]
  rcases lookupRec "TotalCharges" r' with _ | tc
  · trivial
  · rcases lookupRec "MonthlyCharges" r' with _ | mc
    · trivial
    · exact h.setCol _ _

theorem engineerStage_none {r : Record} (h : lookupRec "Contract" r = none) :
    engineerStage r = none := by
  rw [engineerStage, h]

theorem engineerStage_some {r : Record} {cv : Val}
    (h : lookupRec "Contract" r = some cv) :
    engineerStage r =
      match lookupCols service_columns
          (setCol r "NEW_Engaged" (Val.num (servingEngaged cv))) with
      | none => none
      | some svals =>
        some (setCol (setCol r "NEW_Engaged" (Val.num (servingEngaged cv)))
          "NEW_TotalServices" (Val.num (svals.countP isEncodedYes))) := by
  rw [engineerStage, h]

theorem engineerStage_congr {r r' : Record} (h : EquivRec r r') :
    OptEquiv (engineerStage r) (engineerStage r') := by
  rcases e : lookupRec "Contract" r with _ | cv
  · rw [engineerStage_none e, engineerStage_none ((h "Contract").symm.trans e)]
    trivial
  · rw [engineerStage_some e, engineerStage_some ((h "Contract").symm.trans e)]
    have h₁ := h.setCol "NEW_Engaged" (Val.num (servingEngaged cv))
    rw [lookupCols_congr h₁ service_columns]
    rcases lookupCols service_columns
        (setCol r' "NEW_Engaged" (Val.num (servingEngaged cv))) with _ | svals
    · trivial
    · exact h₁.setCol _ _

theorem defaultStage_congr {r r' : Record} (h : EquivRec r r') :
    EquivRec (defaultStage r) (defaultStage r') := by
  rw [defaultStage, defaultStage]
  generalize feature_columns = cs
  induction cs generalizing r r' with
  | nil => exact h
  | cons c t ih =>
    rw [List.foldl_cons, List.foldl_cons, h c]
    rcases (lookupRec c r').isSome with _ | _
    · simp only [Bool.false_eq_true, if_false]
      exact ih (h.setCol c (Val.num 0))
    · simp only [if_true]
      exact ih h

theorem optBind_congr {α : Type} {o o' : Option Record} (h : OptEquiv o o')
    {f g : Record → Option α} (hfg : ∀ a a', EquivRec a a' → f a = g a') :
    o.bind f = o'.bind g := by
  rcases o with _ | a <;> rcases o' with _ | a'
  · rfl
  · exact False.elim h
  · exact False.elim h
  · exact hfg a a' h

/-- The Preprocessing Transform depends on the input record only through
its lookup function. -/
theorem preprocess_input_congr (encs : EncTable) (scOpt : Option ScalerT)
    {r r' : Record} (h : EquivRec r r') :
    preprocess_input encs scOpt r = preprocess_input encs scOpt r' := by
  unfold preprocess_input
  refine optBind_congr (encodeCols_congr encs categorical_columns h) ?_
  intro a a' ha
  refine optBind_congr (imputeStage_congr ha) ?_
  intro b b' hb
  refine optBind_congr (engineerStage_congr hb) ?_
  intro c c' hc
  rw [selectFeatures, selectFeatures, lookupCols_congr (defaultStage_congr hc)]

/-! ## Permutation invariance for records with no duplicate keys -/

theorem mem_of_lookupRec_some {r : Record} {x : String} {v : Val}
    (h : lookupRec x r = some v) : (x, v) ∈ r := by
  induction r with
  | nil => simp [lookupRec] at h
  | cons p t ih =>
    obtain ⟨k, w⟩ := p
    by_cases hkx : k = x
    · subst hkx
      rw [lookupRec, if_pos rfl] at h
      exact (Option.some.injEq _ _ ▸ h) ▸ List.mem_cons_self _ _
    · rw [lookupRec, if_neg hkx] at h
      exact List.mem_cons_of_mem _ (ih h)

theorem lookupRec_eq_none_iff {r : Record} {x : String} :
    lookupRec x r = none ↔ x ∉ keysRec r := by
  induction r with
  | nil => simp [lookupRec, keysRec]
  | cons p t ih =>
    obtain ⟨k, w⟩ := p
    by_cases hkx : k = x
    · subst hkx
      simp [lookupRec, keysRec]
    · simp [lookupRec, hkx, keysRec, ih, Ne.symm hkx]
    
theorem lookupRec_of_mem_nodup {r : Record} {x : String} {v : Val}
    (hnd : (keysRec r).Nodup) (hm : (x, v) ∈ r) : lookupRec x r = some v := by
  induction r with
  | nil => simp at hm
  | cons p t ih =>
    obtain ⟨k, w⟩ := p
    rw [keysRec, List.map_cons, List.nodup_cons] at hnd
    rcases List.mem_cons.mp hm with h | h
    · rw [Prod.mk.injEq] at h
      rw [lookupRec, if_pos h.1.symm, h.2]
    · have hkx : k ≠ x := by
        intro hkx
        exact hnd.1 (hkx ▸ (List.mem_map.mpr ⟨(x, v), h, rfl⟩))
      rw [lookupRec, if_neg hkx]
      exact ih hnd.2 h

/-- Permuting a duplicate-free record does not change any lookup. -/
theorem EquivRec_of_perm {r r' : Record} (hp : r.Perm r')
    (hnd : (keysRec r).Nodup) : EquivRec r r' := by
  intro x
  have hnd' : (keysRec r').Nodup := (hp.map Prod.fst).nodup_iff.mp hnd
  rcases hl : lookupRec x r with _ | v
  · rcases hl' : lookupRec x r' with _ | v'
    · rfl
    · exact absurd (hp.mem_iff.mpr (mem_of_lookupRec_some hl'))
        (fun hm => (lookupRec_eq_none_iff.mp hl)
          (List.mem_map.mpr ⟨(x, v'), hm, rfl⟩))
  · exact (lookupRec_of_mem_nodup hnd' (hp.mem_iff.mp (mem_of_lookupRec_some hl))).symm

/-! ## Characterizing the encoding loop -/

/-- Any unseen category in a listed, encoder-backed column makes the whole
encoding loop fail (the `ValueError` propagates out of the loop). -/
theorem encodeCols_fail (encs : EncTable) :
    ∀ (cs : List String) (r : Record) (c : String) (e : Encoder) (s : String),
      c ∈ cs → lookupEnc c encs = some e → lookupRec c r = some (Val.str s) →
      classIndex e s = none → encodeCols encs cs r = none := by
  intro cs
  induction cs with
  | nil => intro r c e s hc; simp at hc
  | cons c₀ cs ih =>
    intro r c e s hc he hv hk
    by_cases hcc : c₀ = c
    · subst hcc
      rw [encodeCols_cons_str cs hv he, hk]
    · have hc' : c ∈ cs := by
        rcases List.mem_cons.mp hc with h | h
        · exact absurd h.symm hcc
        · exact h
      rcases hv₀ : lookupRec c₀ r with _ | v₀
      · rw [encodeCols_cons_noval cs hv₀]
        exact ih r c e s hc' he hv hk
      · rcases he₀ : lookupEnc c₀ encs with _ | e₀
        · rw [encodeCols_cons_noenc cs he₀]
          exact ih r c e s hc' he hv hk
        · rcases v₀ with q₀ | s₀
          · rw [encodeCols_cons_num cs hv₀ he₀]
          · rw [encodeCols_cons_str cs hv₀ he₀]
            rcases hk₀ : classIndex e₀ s₀ with _ | k₀
            · rfl
            · exact ih _ c e s hc' he
                ((lookupRec_setCol_ne r c₀ c _ (fun h => hcc h.symm)).trans hv) hk

/-- A column with no entry in the encoder table plays no part in the
encoding loop: dropping it from the loop's column list changes nothing. -/
theorem encodeCols_noenc_filter (encs : EncTable) (c : String)
    (henc : lookupEnc c encs = none) :
    ∀ (cs : List String) (r : Record),
      encodeCols encs cs r = encodeCols encs (cs.filter (fun m => m ≠ c)) r := by
  intro cs
  induction cs with
  | nil => intro r; rfl
  | cons c₀ cs ih =>
    intro r
    by_cases hcc : c₀ = c
    · subst hcc
      rw [encodeCols_cons_noenc cs henc, List.filter_cons, if_neg (by simp)]
      exact ih r
    · have hf : (c₀ :: cs).filter (fun m => m ≠ c) = c₀ :: cs.filter (fun m => m ≠ c) := by
        rw [List.filter_cons, if_pos (by simp [hcc])]
      rw [hf]
      rcases hv₀ : lookupRec c₀ r with _ | v₀
      · rw [encodeCols_cons_noval cs hv₀, encodeCols_cons_noval _ hv₀]
        exact ih r
      · rcases he₀ : lookupEnc c₀ encs with _ | e₀
        · rw [encodeCols_cons_noenc cs he₀, encodeCols_cons_noenc _ he₀]
          exact ih r
        · rcases v₀ with q₀ | s₀
          · rw [encodeCols_cons_num cs hv₀ he₀, encodeCols_cons_num _ hv₀ he₀]
          · rw [encodeCols_cons_str cs hv₀ he₀, encodeCols_cons_str _ hv₀ he₀]
            rcases classIndex e₀ s₀ with _ | k₀
            · rfl
            · exact ih _

/-- If the loop succeeds, a column that has no encoder entry keeps exactly
the value it had in the input record. -/
theorem encodeCols_lookup_noenc (encs : EncTable) (c : String)
    (henc : lookupEnc c encs = none) :
    ∀ (cs : List String) (r r' : Record),
      encodeCols encs cs r = some r' → lookupRec c r' = lookupRec c r := by
  intro cs
  induction cs with
  | nil =>
    intro r r' h
    rw [encodeCols] at h
    cases h
    rfl
  | cons c₀ cs ih =>
    intro r r' h
    rcases hv₀ : lookupRec c₀ r with _ | v₀
    · rw [encodeCols_cons_noval cs hv₀] at h
      exact ih r r' h
    · rcases he₀ : lookupEnc c₀ encs with _ | e₀
      · rw [encodeCols_cons_noenc cs he₀] at h
        exact ih r r' h
      · rcases v₀ with q₀ | s₀
        · rw [encodeCols_cons_num cs hv₀ he₀] at h
          cases h
        · rw [encodeCols_cons_str cs hv₀ he₀] at h
          rcases hk₀ : classIndex e₀ s₀ with _ | k₀
          · rw [hk₀] at h
            cases h
          · rw [hk₀] at h
            have hne : c ≠ c₀ := by
              intro hcc
              rw [hcc, he₀] at henc
              cases henc
            exact (ih _ r' h).trans (lookupRec_setCol_ne r c₀ c _ hne)

/-- Success of the encoding loop on in-vocabulary data, together with a
full description of the resulting lookups. -/
theorem encodeCols_some (encs : EncTable) :
    ∀ (cs : List String) (r : Record), cs.Nodup →
    (∀ c ∈ cs, ∀ e, lookupEnc c encs = some e → ∀ v, lookupRec c r = some v →
        ∃ s k, v = Val.str s ∧ classIndex e s = some k) →
    ∃ r', encodeCols encs cs r = some r' ∧
      (∀ x, x ∉ cs → lookupRec x r' = lookupRec x r) ∧
      (∀ x ∈ cs,
        (lookupRec x r = none → lookupRec x r' = none) ∧
        (∀ e s k, lookupEnc x encs = some e → lookupRec x r = some (Val.str s) →
            classIndex e s = some k → lookupRec x r' = some (Val.num k)) ∧
        (lookupEnc x encs = none → lookupRec x r' = lookupRec x r)) := by
  intro cs
  induction cs with
  | nil =>
    intro r _ _
    exact ⟨r, rfl, fun x _ => rfl, fun x hx => absurd hx (List.not_mem_nil x)⟩
  | cons c cs ih =>
    intro r hnd hok
    rw [List.nodup_cons] at hnd
    rcases hv : lookupRec c r with _ | v
    · obtain ⟨r', hr', hout, hin⟩ := ih r hnd.2
        (fun c' hc' e he v hvv => hok c' (List.mem_cons_of_mem c hc') e he v hvv)
      refine ⟨r', by rw [encodeCols_cons_noval cs hv]; exact hr', ?_, ?_⟩
      · intro x hx
        exact hout x (fun hxc => hx (List.mem_cons_of_mem c hxc))
      · intro x hx
        rcases List.mem_cons.mp hx with hxc | hxc
        · subst hxc
          have hpres : lookupRec x r' = lookupRec x r := hout x hnd.1
          refine ⟨fun _ => hpres.trans hv, ?_, fun _ => hpres⟩
          intro e s k _ hvv _
          rw [hv] at hvv
          cases hvv
        · exact hin x hxc
    · rcases he : lookupEnc c encs with _ | e
      · obtain ⟨r', hr', hout, hin⟩ := ih r hnd.2
          (fun c' hc' e' he' v' hvv => hok c' (List.mem_cons_of_mem c hc') e' he' v' hvv)
        refine ⟨r', by rw [encodeCols_cons_noenc cs he]; exact hr', ?_, ?_⟩
        · intro x hx
          exact hout x (fun hxc => hx (List.mem_cons_of_mem c hxc))
        · intro x hx
          rcases List.mem_cons.mp hx with hxc | hxc
          · subst hxc
            have hpres : lookupRec x r' = lookupRec x r := hout x hnd.1
            refine ⟨?_, ?_, fun _ => hpres⟩
            · intro hn
              rw [hv] at hn
              cases hn
            · intro e' s k he' hvv hk
              rw [he] at he'
              cases he'
          · exact hin x hxc
      · obtain ⟨s, k, hvs, hk⟩ := hok c (List.mem_cons_self c cs) e he v hv
        subst hvs
        have hstep : encodeCols encs (c :: cs) r =
            encodeCols encs cs (setCol r c (Val.num k)) := by
          rw [encodeCols_cons_str cs hv he, hk]
        have hokset : ∀ c' ∈ cs, ∀ e', lookupEnc c' encs = some e' →
            ∀ v', lookupRec c' (setCol r c (Val.num k)) = some v' →
            ∃ s' k', v' = Val.str s' ∧ classIndex e' s' = some k' := by
          intro c' hc' e' he' v' hvv
          have hne : c' ≠ c := fun hcc => hnd.1 (hcc ▸ hc')
          rw [lookupRec_setCol_ne r c c' _ hne] at hvv
          exact hok c' (List.mem_cons_of_mem c hc') e' he' v' hvv
        obtain ⟨r', hr', hout, hin⟩ := ih (setCol r c (Val.num k)) hnd.2 hokset
        refine ⟨r', hstep.trans hr', ?_, ?_⟩
        · intro x hx
          have hxc : x ≠ c := fun hh => hx (hh ▸ List.mem_cons_self c cs)
          have hxcs : x ∉ cs := fun hh => hx (List.mem_cons_of_mem c hh)
          rw [hout x hxcs, lookupRec_setCol_ne r c x _ hxc]
        · intro x hx
          rcases List.mem_cons.mp hx with hxc | hxc
          · subst hxc
            have hself : lookupRec x r' = some (Val.num k) := by
              rw [hout x hnd.1, lookupRec_setCol_self]
            refine ⟨?_, ?_, ?_⟩
            · intro hn
              rw [hv] at hn
              cases hn
            · intro e' s' k' he' hvv hk'
              rw [he] at he'
              cases he'
              rw [hv] at hvv
              cases hvv
              rw [hk] at hk'
              cases hk'
              exact hself
            · intro hn
              rw [he] at hn
              cases hn
          · have hne : x ≠ c := fun hcc => hnd.1 (hcc ▸ hxc)
            have hset : lookupRec x (setCol r c (Val.num k)) = lookupRec x r :=
              lookupRec_setCol_ne r c x _ hne
            obtain ⟨h1, h2, h3⟩ := hin x hxc
            exact ⟨fun hn => h1 (hset.trans hn),
              fun e' s' k' he' hvv hk' => h2 e' s' k' he' (hset.trans hvv) hk',
              fun hn => (h3 hn).trans hset⟩

/-! ## Stage characterizations -/

theorem lookupCols_some {r : Record} :
    ∀ {cs : List String}, (∀ c ∈ cs, (lookupRec c r).isSome) →
    lookupCols cs r = some (cs.map (fun c => (lookupRec c r).getD (Val.num 0))) := by
  intro cs
  induction cs with
  | nil => intro _; rfl
  | cons c t ih =>
    intro h
    obtain ⟨v, hv⟩ := Option.isSome_iff_exists.mp (h c (List.mem_cons_self c t))
    rw [lookupCols, hv, ih (fun c' hc' => h c' (List.mem_cons_of_mem c hc')),
      List.map_cons, hv]
    rfl

theorem floatCells_some :
    ∀ {xs : List Val}, (∀ v ∈ xs, (cellToFloat v).isSome) →
    ∃ qs, floatCells xs = some qs ∧ qs.length = xs.length := by
  intro xs
  induction xs with
  | nil => intro _; exact ⟨[], rfl, rfl⟩
  | cons v t ih =>
    intro h
    obtain ⟨q, hq⟩ := Option.isSome_iff_exists.mp (h v (List.mem_cons_self v t))
    obtain ⟨qs, hqs, hlen⟩ := ih (fun v' hv' => h v' (List.mem_cons_of_mem v hv'))
    refine ⟨q :: qs, ?_, by simp [hlen]⟩
    rw [floatCells, hq, hqs]

theorem scalerT_transform_length {sc : ScalerT} {xs : List ℚ}
    (h1 : xs.length = sc.mean.length) (h2 : xs.length = sc.scale.length) :
    ∃ out, sc.transform xs = some out ∧ out.length = xs.length := by
  rw [ScalerT.transform, if_pos ⟨h1, h2⟩]
  refine ⟨_, rfl, ?_⟩
  rw [List.length_zipWith, List.length_zip]
  omega

theorem imputeStage_some {r : Record} {tc mc : Val}
    (htc : lookupRec "TotalCharges" r = some tc)
    (hmc : lookupRec "MonthlyCharges" r = some mc) :
    imputeStage r = some (setCol r "TotalCharges" (imputeTC tc mc)) := by
  rw [imputeStage, htc, hmc]

theorem lookupRec_foldl_default :
    ∀ (cs : List String) (r : Record) (x : String),
    lookupRec x (cs.foldl (fun acc c =>
        if (lookupRec c acc).isSome then acc else setCol acc c (Val.num 0)) r) =
      if (lookupRec x r).isSome then lookupRec x r
      else if x ∈ cs then some (Val.num 0) else none := by
  intro cs
  induction cs with
  | nil =>
    intro r x
    rcases h : lookupRec x r with _ | v <;> simp [List.foldl_nil, h]
  | cons c t ih =>
    intro r x
    rw [List.foldl_cons]
    by_cases hxc : x = c
    · subst hxc
      rcases h : lookupRec x r with _ | v
      · rw [if_neg (by simp [h]), ih, lookupRec_setCol_self]
        simp [h]
      · rw [if_pos (by simp [h]), ih, h]
        simp
    · have hstep : lookupRec x (if (lookupRec c r).isSome then r
          else setCol r c (Val.num 0)) = lookupRec x r := by
        rcases (lookupRec c r).isSome with _ | _
        · simp only [Bool.false_eq_true, if_false]
          exact lookupRec_setCol_ne r c x _ hxc
        · rfl
      rcases h : lookupRec x r with _ | v
      · rcases hc : lookupRec c r with _ | w
        · rw [if_neg (by simp [hc]), ih, lookupRec_setCol_ne r c x _ hxc, h]
          simp [hxc]
        · rw [if_pos (by simp [hc]), ih, h]
          simp [hxc]
      · rcases hc : lookupRec c r with _ | w
        · rw [if_neg (by simp [hc]), ih, lookupRec_setCol_ne r c x _ hxc, h]
          simp
        · rw [if_pos (by simp [hc]), ih, h]
          simp

/-- What the default-to-0 loop leaves in each column. -/
theorem lookupRec_defaultStage (r : Record) (x : String) :
    lookupRec x (defaultStage r) =
      if (lookupRec x r).isSome then lookupRec x r
      else if x ∈ feature_columns then some (Val.num 0) else none := by
  rw [defaultStage]
  exact lookupRec_foldl_default feature_columns r x

/-! ## Valid Customer Records -/

/-- The 19 raw fields of a Customer Record (the feature columns that come
from the input rather than being derived). -/
def raw_fields : List String :=
  ["SeniorCitizen", "tenure", "MonthlyCharges", "TotalCharges",
   "gender", "Partner", "Dependents", "PhoneService", "MultipleLines",
   "InternetService", "OnlineSecurity", "OnlineBackup", "DeviceProtection",
   "TechSupport", "StreamingTV", "StreamingMovies", "Contract",
   "PaperlessBilling", "PaymentMethod"]

/-- The raw numeric fields other than `TotalCharges`. -/
def numeric_fields : List String := ["SeniorCitizen", "tenure", "MonthlyCharges"]

/-- The fields the transform consumes before the default-to-0 loop; a
record missing any of these makes `preprocess_input` fail instead of
defaulting. -/
def required_fields : List String :=
  "TotalCharges" :: "MonthlyCharges" :: "Contract" :: service_columns

/-- A record is a valid Customer Record for a given encoder table when its
keys are duplicate-free, the fields consumed before assembly are present
(`MonthlyCharges` as a number), every present categorical field is a string
of the field's trained vocabulary, and every present numeric field is a
number.  Fields outside `required_fields` may be absent. -/
def validRecord (encs : EncTable) (r : Record) : Bool :=
  decide ((keysRec r).Nodup) &&
  ((lookupRec "TotalCharges" r).isSome &&
   (match lookupRec "MonthlyCharges" r with
    | some (Val.num _) => true
    | _ => false) &&
   (lookupRec "Contract" r).isSome &&
   service_columns.all (fun c => (lookupRec c r).isSome)) &&
  categorical_columns.all (fun c =>
    match lookupRec c r with
    | none => true
    | some v =>
      match lookupEnc c encs, v with
      | some e, Val.str s => (classIndex e s).isSome
      | _, _ => false) &&
  numeric_fields.all (fun c =>
    match lookupRec c r with
    | none => true
    | some (Val.num _) => true
    | some (Val.str _) => false)

/-- `X = df[feature_columns]` (src/app.py line 76): the assembled,
still-unscaled row produced from a request record. -/
def assembleRow (encs : EncTable) (data : Record) : Option (List Val) :=
  (encodeCols encs categorical_columns data).bind fun r₁ =>
  (imputeStage r₁).bind fun r₂ =>
  (engineerStage r₂).bind fun r₃ =>
  selectFeatures (defaultStage r₃)

/-- The transform is the assembled row fed through the scaler. -/
theorem preprocess_input_assemble (encs : EncTable) (scOpt : Option ScalerT)
    (data : Record) :
    preprocess_input encs scOpt data =
      (assembleRow encs data).bind fun xs =>
      (floatCells xs).bind fun xq =>
      scOpt.bind fun sc => sc.transform xq := by
  simp only [preprocess_input, assembleRow, Option.bind_assoc]

theorem engineerStage_some2 {r : Record} {cv : Val} {svals : List Val}
    (h : lookupRec "Contract" r = some cv)
    (hs : lookupCols service_columns
        (setCol r "NEW_Engaged" (Val.num (servingEngaged cv))) = some svals) :
    engineerStage r =
      some (setCol (setCol r "NEW_Engaged" (Val.num (servingEngaged cv)))
        "NEW_TotalServices" (Val.num (svals.countP isEncodedYes))) := by
  rw [engineerStage_some h, hs]

/-- Imputation with a numeric `MonthlyCharges` always yields a number. -/
theorem imputeTC_num (tc : Val) (q : ℚ) :
    ∃ q', imputeTC tc (Val.num q) = Val.num q' := by
  rw [imputeTC]
  rcases toNumericVal tc with _ | p
  · exact ⟨q, rfl⟩
  · exact ⟨p, rfl⟩

/-- On a valid Customer Record the row assembly succeeds with 21 numeric
cells, and every raw field absent from the record contributes the cell 0
at its feature position. -/
theorem assembleRow_valid (encs : EncTable) (r : Record)
    (hval : validRecord encs r = true) :
    ∃ xs, assembleRow encs r = some xs ∧ xs.length = 21 ∧
      (∀ v ∈ xs, ∃ q, v = Val.num q) ∧
      (∀ c ∈ raw_fields, lookupRec c r = none →
        ∀ i, feature_columns.get? i = some c → xs.get? i = some (Val.num 0)) := by
  rw [validRecord] at hval
  simp only [Bool.and_eq_true, decide_eq_true_eq, List.all_eq_true] at hval
  obtain ⟨⟨⟨hnd, ⟨⟨⟨htc, hmcs⟩, hcontract⟩, hsvc⟩⟩, hcat⟩, hnum⟩ := hval
  obtain ⟨tc, htc'⟩ := Option.isSome_iff_exists.mp htc
  obtain ⟨mq, hmc⟩ : ∃ q, lookupRec "MonthlyCharges" r = some (Val.num q) := by
    rcases h : lookupRec "MonthlyCharges" r with _ | v
    · rw [h] at hmcs
      cases hmcs
    · rcases v with q | s
      · exact ⟨q, rfl⟩
      · rw [h] at hmcs
        cases hmcs
  have hcat' : ∀ c ∈ categorical_columns, ∀ v, lookupRec c r = some v →
      ∃ e s k, lookupEnc c encs = some e ∧ v = Val.str s ∧ classIndex e s = some k := by
    intro c hc v hv
    have h := hcat c hc
    rw [hv] at h
    rcases he : lookupEnc c encs with _ | e
    · rw [he] at h
      rcases v with q | s <;> cases h
    · rcases v with q | s
      · rw [he] at h
        cases h
      · rw [he] at h
        obtain ⟨k, hk⟩ := Option.isSome_iff_exists.mp h
        exact ⟨e, s, k, rfl, rfl, hk⟩
  have hok : ∀ c ∈ categorical_columns, ∀ e, lookupEnc c encs = some e →
      ∀ v, lookupRec c r = some v →
      ∃ s k, v = Val.str s ∧ classIndex e s = some k := by
    intro c hc e he v hv
    obtain ⟨e', s, k, he', hvs, hk⟩ := hcat' c hc v hv
    rw [he] at he'
    cases he'
    exact ⟨s, k, hvs, hk⟩
  obtain ⟨r₁, he₁, hout₁, hin₁⟩ :=
    encodeCols_some encs categorical_columns r (by decide) hok
  have htc₁ : lookupRec "TotalCharges" r₁ = some tc :=
    (hout₁ "TotalCharges" (by decide)).trans htc'
  have hmc₁ : lookupRec "MonthlyCharges" r₁ = some (Val.num mq) :=
    (hout₁ "MonthlyCharges" (by decide)).trans hmc
  obtain ⟨tq, htq⟩ := imputeTC_num tc mq
  have himp : imputeStage r₁ =
      some (setCol r₁ "TotalCharges" (imputeTC tc (Val.num mq))) :=
    imputeStage_some htc₁ hmc₁
  set r₂ := setCol r₁ "TotalCharges" (imputeTC tc (Val.num mq)) with hr₂
  have htc₂ : lookupRec "TotalCharges" r₂ = some (Val.num tq) := by
    rw [hr₂, lookupRec_setCol_self, htq]
  have hpres₂ : ∀ x, x ≠ "TotalCharges" → lookupRec x r₂ = lookupRec x r₁ := by
    intro x hx
    rw [hr₂]
    exact lookupRec_setCol_ne r₁ "TotalCharges" x _ hx
  -- the encoded Contract cell
  obtain ⟨cv, hcv⟩ := Option.isSome_iff_exists.mp hcontract
  obtain ⟨ec, sc, kc, hec, hcvs, hkc⟩ := hcat' "Contract" (by decide) cv hcv
  have hcon₁ : lookupRec "Contract" r₁ = some (Val.num kc) :=
    (hin₁ "Contract" (by decide)).2.1 ec sc kc hec (hcvs ▸ hcv) hkc
  have hcon₂ : lookupRec "Contract" r₂ = some (Val.num kc) :=
    (hpres₂ "Contract" (by decide)).trans hcon₁
  set ev : Val := Val.num (servingEngaged (Val.num kc)) with hev
  set A := setCol r₂ "NEW_Engaged" ev with hA
  have hpresA : ∀ x, x ≠ "NEW_Engaged" → lookupRec x A = lookupRec x r₂ := by
    intro x hx
    rw [hA]
    exact lookupRec_setCol_ne r₂ "NEW_Engaged" x _ hx
  have hsvcnum : ∀ c ∈ service_columns, ∃ k : ℚ, lookupRec c r₁ = some (Val.num k) := by
    intro c hc
    have hcinc : c ∈ categorical_columns := by
      have hf : ∀ m ∈ service_columns, m ∈ categorical_columns := by decide
      exact hf c hc
    obtain ⟨v, hv⟩ := Option.isSome_iff_exists.mp (hsvc c hc)
    obtain ⟨e, s, k, he, hvs, hk⟩ := hcat' c hcinc v hv
    exact ⟨k, (hin₁ c hcinc).2.1 e s k he (hvs ▸ hv) hk⟩
  have hsvcA : ∀ c ∈ service_columns, (lookupRec c A).isSome := by
    intro c hc
    obtain ⟨k, hk⟩ := hsvcnum c hc
    have h1 : lookupRec c A = lookupRec c r₁ := by
      have hf1 : ∀ m ∈ service_columns, m ≠ "NEW_Engaged" := by decide
      have hf2 : ∀ m ∈ service_columns, m ≠ "TotalCharges" := by decide
      rw [hpresA c (hf1 c hc), hpres₂ c (hf2 c hc)]
    rw [h1, hk]
    rfl
  have hcols := @lookupCols_some A service_columns hsvcA
  have heng : engineerStage r₂ =
      some (setCol A "NEW_TotalServices" (Val.num
        ((service_columns.map (fun c => (lookupRec c A).getD (Val.num 0))).countP
          isEncodedYes))) := by
    exact engineerStage_some2 hcon₂ hcols
  set r₃ := setCol A "NEW_TotalServices" (Val.num
      ((service_columns.map (fun c => (lookupRec c A).getD (Val.num 0))).countP
        isEncodedYes)) with hr₃
  have hpres₃ : ∀ x, x ≠ "NEW_TotalServices" → lookupRec x r₃ = lookupRec x A := by
    intro x hx
    rw [hr₃]
    exact lookupRec_setCol_ne A "NEW_TotalServices" x _ hx
  have hraw₃ : ∀ x, x ≠ "TotalCharges" → x ≠ "NEW_Engaged" → x ≠ "NEW_TotalServices" →
      lookupRec x r₃ = lookupRec x r₁ := by
    intro x h1 h2 h3
    rw [hpres₃ x h3, hpresA x h2, hpres₂ x h1]
  -- every feature column holds a number (or is absent) in r₃
  have hcell : ∀ c ∈ feature_columns, ∃ q, lookupRec c (defaultStage r₃) = some (Val.num q) := by
    intro c hc
    have hkind : c ∈ categorical_columns ∨ c ∈ numeric_fields ∨ c = "TotalCharges" ∨
        c = "NEW_Engaged" ∨ c = "NEW_TotalServices" := by
      revert hc
      revert c
      decide
    have hfc : c ∈ feature_columns := hc
    rcases hkind with hk | hk | hk | hk | hk
    · -- categorical
      have hne : c ≠ "TotalCharges" ∧ c ≠ "NEW_Engaged" ∧ c ≠ "NEW_TotalServices" := by
        revert hk
        revert c
        decide
      rcases hv : lookupRec c r with _ | v
      · have h3 : lookupRec c r₃ = none := by
          rw [hraw₃ c hne.1 hne.2.1 hne.2.2]
          exact (hin₁ c hk).1 hv
        rw [lookupRec_defaultStage, h3]
        simp only [Option.isSome_none, Bool.false_eq_true, if_false]
        rw [if_pos hfc]
        exact ⟨0, rfl⟩
      · obtain ⟨e, s, k, he, hvs, hkk⟩ := hcat' c hk v hv
        have h3 : lookupRec c r₃ = some (Val.num k) := by
          rw [hraw₃ c hne.1 hne.2.1 hne.2.2]
          exact (hin₁ c hk).2.1 e s k he (hvs ▸ hv) hkk
        rw [lookupRec_defaultStage, h3]
        exact ⟨k, rfl⟩
    · -- numeric
      have hne : c ∉ categorical_columns ∧ c ≠ "TotalCharges" ∧ c ≠ "NEW_Engaged" ∧
          c ≠ "NEW_TotalServices" := by
        revert hk
        revert c
        decide
      rcases hv : lookupRec c r with _ | v
      · have h3 : lookupRec c r₃ = none := by
          rw [hraw₃ c hne.2.1 hne.2.2.1 hne.2.2.2, hout₁ c hne.1]
          exact hv
        rw [lookupRec_defaultStage, h3]
        simp only [Option.isSome_none, Bool.false_eq_true, if_false]
        rw [if_pos hfc]
        exact ⟨0, rfl⟩
      · have hshape := hnum c hk
        rw [hv] at hshape
        rcases v with q | s
        · have h3 : lookupRec c r₃ = some (Val.num q) := by
            rw [hraw₃ c hne.2.1 hne.2.2.1 hne.2.2.2, hout₁ c hne.1]
            exact hv
          rw [lookupRec_defaultStage, h3]
          exact ⟨q, rfl⟩
        · cases hshape
    · -- TotalCharges
      subst hk
      have h3 : lookupRec "TotalCharges" r₃ = some (Val.num tq) := by
        rw [hpres₃ _ (by decide), hpresA _ (by decide)]
        exact htc₂
      rw [lookupRec_defaultStage, h3]
      exact ⟨tq, rfl⟩
    · -- NEW_Engaged
      subst hk
      have h3 : lookupRec "NEW_Engaged" r₃ = some ev := by
        rw [hpres₃ _ (by decide), hA, lookupRec_setCol_self]
      rw [lookupRec_defaultStage, h3, hev]
      exact ⟨_, rfl⟩
    · -- NEW_TotalServices
      subst hk
      have h3 : lookupRec "NEW_TotalServices" r₃ = some (Val.num
          ((service_columns.map (fun c => (lookupRec c A).getD (Val.num 0))).countP
            isEncodedYes)) := by
        rw [hr₃, lookupRec_setCol_self]
      rw [lookupRec_defaultStage, h3]
      exact ⟨_, rfl⟩
  have hsel : selectFeatures (defaultStage r₃) =
      some (feature_columns.map (fun c => (lookupRec c (defaultStage r₃)).getD (Val.num 0))) := by
    rw [selectFeatures]
    exact lookupCols_some (fun c hc => by
      obtain ⟨q, hq⟩ := hcell c hc
      rw [hq]
      rfl)
  refine ⟨feature_columns.map (fun c => (lookupRec c (defaultStage r₃)).getD (Val.num 0)),
    ?_, by rw [List.length_map]; rfl, ?_, ?_⟩
  · rw [assembleRow, he₁, Option.some_bind, himp, Option.some_bind, heng, Option.some_bind]
    exact hsel
  · intro v hv
    obtain ⟨c, hc, hcv'⟩ := List.mem_map.mp hv
    obtain ⟨q, hq⟩ := hcell c hc
    rw [hq] at hcv'
    exact ⟨q, hcv'.symm⟩
  · intro c hcr hv i hi
    have hfmem : ∀ m ∈ raw_fields, m ∈ feature_columns := by decide
    have hcmem : c ∈ feature_columns := hfmem c hcr
    have habs₃ : lookupRec c r₃ = none := by
      have hneTC : c ≠ "TotalCharges" := by
        intro hh
        rw [hh, htc'] at hv
        cases hv
      have hfNE : ∀ m ∈ raw_fields, m ≠ "NEW_Engaged" := by decide
      have hfNT : ∀ m ∈ raw_fields, m ≠ "NEW_TotalServices" := by decide
      rw [hraw₃ c hneTC (hfNE c hcr) (hfNT c hcr)]
      by_cases hck : c ∈ categorical_columns
      · exact (hin₁ c hck).1 hv
      · rw [hout₁ c hck]
        exact hv
    have hdef : lookupRec c (defaultStage r₃) = some (Val.num 0) := by
      rw [lookupRec_defaultStage, habs₃]
      simp only [Option.isSome_none, Bool.false_eq_true, if_false]
      rw [if_pos hcmem]
    rw [List.get?_map, hi]
    show some ((lookupRec c (defaultStage r₃)).getD (Val.num 0)) = some (Val.num 0)
    rw [hdef]
    rfl

/-- On a valid Customer Record with a 21-wide fitted scaler the whole
Preprocessing Transform succeeds with a 21-element numeric vector. -/
theorem preprocess_input_valid (encs : EncTable) (sc : ScalerT) (r : Record)
    (hval : validRecord encs r = true)
    (hm : sc.mean.length = 21) (hs : sc.scale.length = 21) :
    ∃ out, preprocess_input encs (some sc) r = some out ∧ out.length = 21 := by
  obtain ⟨xs, hxs, hlen, hshape, _⟩ := assembleRow_valid encs r hval
  have hfloat : ∀ v ∈ xs, (cellToFloat v).isSome := by
    intro v hv
    obtain ⟨q, hq⟩ := hshape v hv
    rw [hq]
    rfl
  obtain ⟨qs, hqs, hqlen⟩ := floatCells_some hfloat
  obtain ⟨out, hout, holen⟩ := @scalerT_transform_length sc qs
    (by rw [hqlen, hlen, hm]) (by rw [hqlen, hlen, hs])
  refine ⟨out, ?_, by rw [holen, hqlen, hlen]⟩
  rw [preprocess_input_assemble, hxs, Option.some_bind, hqs, Option.some_bind,
    Option.some_bind]
  exact hout

/-! ## Endpoint behaviour -/

theorem predictHandler_state (st : AppState) (body : Option Record) :
    (predictHandler st body).2 = st := by
  rw [predictHandler]
  split
  · rfl
  · split
    · rfl
    · split
      · rfl
      · split
        · rfl
        · rfl

theorem healthHandler_state (st : AppState) : (healthHandler st).2 = st := rfl

theorem modelInfoHandler_state (st : AppState) : (modelInfoHandler st).2 = st := by
  rw [modelInfoHandler]
  split
  · rfl
  · rfl

/-- Claim C7: `GET /health` always returns status 200 with body
`{status: "healthy", model_loaded: b}` where the boolean `b` is true
exactly when the model artifact is loaded, in every process state. -/
theorem health_always_healthy_and_reports_model : ∀ st : AppState,
    healthHandler st =
      (⟨200, [("status", JVal.jstr "healthy"),
              ("model_loaded", JVal.jbool st.model.isSome)]⟩, st) ∧
    (st.model.isSome = true ↔ ∃ m, st.model = some m) :=
  fun st => ⟨rfl, Option.isSome_iff_exists⟩

/-- Claim C8: the Preprocessing Transform is deterministic — running it
twice with the same record and the same loaded artifacts yields the same
output both times, and replaying a request against the state a previous
request left behind reproduces the previous response. -/
theorem preprocess_input_deterministic :
    ∀ (encs : EncTable) (scOpt : Option ScalerT) (r : Record),
      (runTwice (preprocess_input encs scOpt) r).1 =
        (runTwice (preprocess_input encs scOpt) r).2 ∧
      ∀ (st : AppState) (body : Option Record),
        predictHandler ((predictHandler st body).2) body = predictHandler st body := by
  intro encs scOpt r
  refine ⟨rfl, ?_⟩
  intro st body
  rw [predictHandler_state]

/-- Claim C9: handling any request on `/predict`, `/health` or
`/model_info` leaves the process-wide state (the three loaded artifacts)
exactly as it was, for every input. -/
theorem handlers_leave_state_unchanged :
    ∀ (st : AppState) (body : Option Record),
      (predictHandler st body).2 = st ∧
      (healthHandler st).2 = st ∧
      (modelInfoHandler st).2 = st :=
  fun st body =>
    ⟨predictHandler_state st body, healthHandler_state st, modelInfoHandler_state st⟩

/-- Claim C10: a categorical field present in the record but absent from
the loaded encoder table is skipped by the encoding loop — removing it
from the loop's column list changes nothing, and whenever the loop
succeeds the field still holds its raw value. -/
theorem no_encoder_entry_passes_raw_value (encs : EncTable) (c : String)
    (r : Record) (v : Val) (hc : c ∈ categorical_columns)
    (hv : lookupRec c r = some v) (henc : lookupEnc c encs = none) :
    encodeCols encs categorical_columns r =
      encodeCols encs (categorical_columns.filter (fun m => m ≠ c)) r ∧
    ∀ r', encodeCols encs categorical_columns r = some r' →
      lookupRec c r' = some v := by
  refine ⟨encodeCols_noenc_filter encs c henc categorical_columns r, ?_⟩
  intro r' h
  rw [encodeCols_lookup_noenc encs c henc categorical_columns r r' h, hv]

/-- Witness for C10 at a concrete artifact bundle lacking the `gender`
encoder: the raw string "Male" survives the loop. -/
theorem no_encoder_entry_passes_raw_value_witness :
    encodeCols noGenderTable categorical_columns sampleRecord =
      encodeCols noGenderTable (categorical_columns.filter (fun m => m ≠ "gender"))
        sampleRecord ∧
    ∀ r', encodeCols noGenderTable categorical_columns sampleRecord = some r' →
      lookupRec "gender" r' = some (Val.str "Male") :=
  no_encoder_entry_passes_raw_value noGenderTable "gender" sampleRecord
    (Val.str "Male") (by decide) (by decide) (by decide)

/-- Claim C2: when the raw `TotalCharges` value does not parse as a
number, the imputation rule — the same rule in serving
(src/app.py lines 55-56) and training (src/model_training.py lines 24-25)
— substitutes the record's `MonthlyCharges` value, which is then the
`TotalCharges` value used downstream. -/
theorem totalcharges_imputed_from_monthly (tc mc : Val) (r : Record)
    (htc : lookupRec "TotalCharges" r = some tc)
    (hmc : lookupRec "MonthlyCharges" r = some mc)
    (hun : toNumericVal tc = none) :
    imputeTC tc mc = mc ∧
    ∃ r', imputeStage r = some r' ∧ lookupRec "TotalCharges" r' = some mc := by
  have him : imputeTC tc mc = mc := by
    rw [imputeTC, hun]
  refine ⟨him, setCol r "TotalCharges" mc, ?_, lookupRec_setCol_self r "TotalCharges" mc⟩
  rw [imputeStage_some htc hmc, him]

/-- Witness for C2 at the spec's concrete instance: `TotalCharges` = "N/A"
with `MonthlyCharges` = 70.0 imputes 70.0. -/
theorem totalcharges_imputed_from_monthly_witness :
    imputeTC (Val.str "N/A") (Val.num 70) = Val.num 70 ∧
    ∃ r', imputeStage [("TotalCharges", Val.str "N/A"), ("MonthlyCharges", Val.num 70)] =
        some r' ∧
      lookupRec "TotalCharges" r' = some (Val.num 70) :=
  totalcharges_imputed_from_monthly (Val.str "N/A") (Val.num 70)
    [("TotalCharges", Val.str "N/A"), ("MonthlyCharges", Val.num 70)]
    (by decide) (by decide) (by decide)

/-- Claim C6: `POST /predict` checks model readiness first and returns 500
with an error field whenever the model is not loaded (whatever the body);
with a loaded model it returns 400 with an error field on a missing body
or an empty JSON object; and it returns 400 with the failure reason when
preprocessing fails on a non-empty body. -/
theorem predict_status_codes :
    (∀ (st : AppState) (body : Option Record), st.model = none →
        predictHandler st body =
          (⟨500, [("error", JVal.jstr "Model not loaded")]⟩, st)) ∧
    (∀ (st : AppState) (m : Model), st.model = some m →
        predictHandler st none =
          (⟨400, [("error", JVal.jstr "No data provided")]⟩, st) ∧
        predictHandler st (some []) =
          (⟨400, [("error", JVal.jstr "No data provided")]⟩, st)) ∧
    (∀ (st : AppState) (m : Model) (r : Record), st.model = some m → r ≠ [] →
        preprocess_input st.label_encoders st.scaler r = none →
        predictHandler st (some r) =
          (⟨400, [("error", JVal.jstr "Error in data preprocessing")]⟩, st)) := by
  refine ⟨?_, ?_, ?_⟩
  · intro st body h
    rw [predictHandler, h]
  · intro st m h
    constructor
    · rw [predictHandler, h]
      rfl
    · rw [predictHandler, h]
      rfl
  · intro st m r h hne hpre
    have hemp : r.isEmpty = false := by
      cases r
      · exact absurd rfl hne
      · rfl
    have htr : truthyBody (some r) = true := by
      rw [truthyBody, hemp]
      rfl
    simp only [predictHandler, h, htr, Bool.true_eq_false, if_false, hpre]

/-- Witness for C6: the three status codes at concrete states and bodies. -/
theorem predict_status_codes_witness :
    predictHandler ⟨none, [], none⟩ (some sampleRecord) =
      (⟨500, [("error", JVal.jstr "Model not loaded")]⟩, ⟨none, [], none⟩) ∧
    predictHandler sampleState none =
      (⟨400, [("error", JVal.jstr "No data provided")]⟩, sampleState) ∧
    predictHandler sampleState (some []) =
      (⟨400, [("error", JVal.jstr "No data provided")]⟩, sampleState) ∧
    predictHandler sampleState (some badContractRecord) =
      (⟨400, [("error", JVal.jstr "Error in data preprocessing")]⟩, sampleState) :=
  ⟨predict_status_codes.1 ⟨none, [], none⟩ (some sampleRecord) rfl,
   (predict_status_codes.2.1 sampleState sampleModel rfl).1,
   (predict_status_codes.2.1 sampleState sampleModel rfl).2,
   predict_status_codes.2.2 sampleState sampleModel badContractRecord rfl
     (by decide) (by decide)⟩

/-- Claim C1 counterexample: an out-of-vocabulary `Contract` makes the
transform fail, but the 400 response carries only the fixed message
"Error in data preprocessing" — it does not name the offending field, and
is byte-identical to the response for a record failing on `gender`
instead. -/
theorem unknown_category_error_names_no_field :
    preprocess_input stdEncTable (some idScaler) badContractRecord = none ∧
    (predictHandler sampleState (some badContractRecord)).1 =
      ⟨400, [("error", JVal.jstr "Error in data preprocessing")]⟩ ∧
    (predictHandler sampleState (some badContractRecord)).1 =
      (predictHandler sampleState (some badGenderRecord)).1 :=
  ⟨by decide, by decide, by decide⟩

/-- Claim C1 (amended): an input whose categorical value lies outside the
trained vocabulary makes the Preprocessing Transform fail with no result
(and no structured error), and `POST /predict` surfaces this as a 400
whose body carries only the generic message "Error in data preprocessing",
without the offending field name. -/
theorem unknown_category_fails_with_generic_400 (encs : EncTable)
    (scOpt : Option ScalerT) (m : Model) (r : Record) (c : String)
    (e : Encoder) (s : String) (hc : c ∈ categorical_columns)
    (he : lookupEnc c encs = some e) (hv : lookupRec c r = some (Val.str s))
    (hks : classIndex e s = none) :
    preprocess_input encs scOpt r = none ∧
    predictHandler ⟨some m, encs, scOpt⟩ (some r) =
      (⟨400, [("error", JVal.jstr "Error in data preprocessing")]⟩,
       ⟨some m, encs, scOpt⟩) := by
  have henc : encodeCols encs categorical_columns r = none :=
    encodeCols_fail encs categorical_columns r c e s hc he hv hks
  have hpre : preprocess_input encs scOpt r = none := by
    simp only [preprocess_input, henc, Option.none_bind]
  have hne : r ≠ [] := by
    intro hr
    rw [hr] at hv
    simp [lookupRec] at hv
  have hemp : r.isEmpty = false := by
    cases r
    · exact absurd rfl hne
    · rfl
  have htr : truthyBody (some r) = true := by
    rw [truthyBody, hemp]
    rfl
  refine ⟨hpre, ?_⟩
  simp only [predictHandler, htr, Bool.true_eq_false, if_false, hpre]

/-- Witness for the amended C1 at the concrete bad record. -/
theorem unknown_category_fails_with_generic_400_witness :
    preprocess_input stdEncTable (some idScaler) badContractRecord = none ∧
    predictHandler ⟨some sampleModel, stdEncTable, some idScaler⟩
        (some badContractRecord) =
      (⟨400, [("error", JVal.jstr "Error in data preprocessing")]⟩,
       ⟨some sampleModel, stdEncTable, some idScaler⟩) :=
  unknown_category_fails_with_generic_400 stdEncTable (some idScaler) sampleModel
    badContractRecord "Contract" ["Month-to-month", "One year", "Two year"]
    "Lifetime" (by decide) (by decide) (by decide) (by decide)

/-- Claim C3: the training path derives `NEW_Engaged` from the raw
`Contract` label, but the serving path tests the encoded code against
{1, 2}.  With an encoder fit on the vocabulary {"One year", "Two year"}
(codes 0 and 1), a "One year" record gets `NEW_Engaged` = 0 from the
serving transform where the raw-label rule (and training) give 1: the
serving value depends on the code assignment, refuting code-independence. -/
theorem new_engaged_depends_on_code_assignment :
    trainEngaged (Val.str "One year") = 1 ∧
    c3Table = [("Contract", ["One year", "Two year"])] ∧
    feature_columns.get? 19 = some "NEW_Engaged" ∧
    (assembleRow c3Table c3Record).map (fun xs => xs.get? 19) =
      some (some (Val.num 0)) := by
  decide

/-- Claim C4: the training path counts raw "Yes" strings, but the serving
path counts encoded cells equal to 1.  Under the real fitted vocabularies
the six internet-service columns encode "Yes" as 2 (sorted order: No = 0,
No internet service = 1, Yes = 2), so a record with exactly three services
at "Yes" yields 3 in training but 1 from the serving transform. -/
theorem new_totalservices_differs_between_paths :
    trainTotalServices threeServicesCells = 3 ∧
    feature_columns.get? 20 = some "NEW_TotalServices" ∧
    (assembleRow stdEncTable threeServicesRecord).map (fun xs => xs.get? 20) =
      some (some (Val.num 1)) := by
  decide

/-- A valid record has duplicate-free keys. -/
theorem validRecord_nodup {encs : EncTable} {r : Record}
    (h : validRecord encs r = true) : (keysRec r).Nodup := by
  rw [validRecord] at h
  simp only [Bool.and_eq_true, decide_eq_true_eq] at h
  exact h.1.1.1

/-- Claim C5 counterexample: a record that is valid except that `Contract`
is structurally absent makes the transform fail rather than contributing 0
at Contract's position, while the same absence of `gender` (a field not
consumed before assembly) is defaulted to 0. -/
theorem missing_contract_fails_instead_of_zero :
    preprocess_input stdEncTable (some idScaler) (dropField sampleRecord "Contract") =
      none ∧
    feature_columns.get? 4 = some "gender" ∧
    (assembleRow stdEncTable (dropField sampleRecord "gender")).map
        (fun xs => xs.get? 4) = some (some (Val.num 0)) ∧
    (preprocess_input stdEncTable (some idScaler)
        (dropField sampleRecord "gender")).isSome = true := by
  decide

/-- Claim C5 (amended): for every valid Customer Record (duplicate-free
keys, the fields consumed before assembly present, every present
categorical value in its trained vocabulary, numeric fields numeric) and
21-wide scaler, the Preprocessing Transform succeeds with a vector of
exactly 21 numbers, its output is unchanged under any reordering of the
input fields, and a structurally absent raw field that is not consumed
before assembly (absence of `TotalCharges`, `MonthlyCharges`, `Contract`
or a service column instead fails, as the counterexample shows)
contributes the cell 0 at its feature position. -/
theorem valid_record_yields_21_vector (encs : EncTable) (sc : ScalerT)
    (r : Record) (hval : validRecord encs r = true)
    (hm : sc.mean.length = 21) (hsc : sc.scale.length = 21) :
    (∃ out, preprocess_input encs (some sc) r = some out ∧ out.length = 21) ∧
    (∀ r', r.Perm r' →
      preprocess_input encs (some sc) r = preprocess_input encs (some sc) r') ∧
    (∃ xs, assembleRow encs r = some xs ∧ xs.length = 21 ∧
      ∀ c ∈ raw_fields, lookupRec c r = none →
        ∀ i, feature_columns.get? i = some c → xs.get? i = some (Val.num 0)) := by
  refine ⟨preprocess_input_valid encs sc r hval hm hsc, ?_, ?_⟩
  · intro r' hp
    exact preprocess_input_congr encs (some sc)
      (EquivRec_of_perm hp (validRecord_nodup hval))
  · obtain ⟨xs, h1, h2, _, h4⟩ := assembleRow_valid encs r hval
    exact ⟨xs, h1, h2, h4⟩

/-- Witness for the amended C5 at the concrete sample record and
artifacts. -/
theorem valid_record_yields_21_vector_witness :
    validRecord stdEncTable sampleRecord = true ∧
    ((∃ out, preprocess_input stdEncTable (some idScaler) sampleRecord = some out ∧
        out.length = 21) ∧
    (∀ r', sampleRecord.Perm r' →
      preprocess_input stdEncTable (some idScaler) sampleRecord =
        preprocess_input stdEncTable (some idScaler) r') ∧
    (∃ xs, assembleRow stdEncTable sampleRecord = some xs ∧ xs.length = 21 ∧
      ∀ c ∈ raw_fields, lookupRec c sampleRecord = none →
        ∀ i, feature_columns.get? i = some c → xs.get? i = some (Val.num 0))) :=
  ⟨by decide,
   valid_record_yields_21_vector stdEncTable idScaler sampleRecord (by decide) rfl rfl⟩
